import Mathlib

/-!
# Verification of the NFL team tracker schedule resolver

Shallow embedding of the schedule classification and ordering algorithm of
`fetchTeamSchedule` (src/unnamed/part_000 lines 124-197 and the identical
logic in src/src/app/page.tsx lines 78-154).

Modelling conventions:
* JavaScript date strings are represented by their parse result: an
  `Option Int` millisecond epoch timestamp, with `none` standing for an
  unparseable date (`new Date(s).getTime()` = NaN).
* Optional chaining (`?.`) becomes `Option.bind`; the JS `||` defaulting on
  strings (which treats both `undefined` and `""` as falsy) is `jsOrStr`.
* `Array.prototype.sort` is stable per ECMAScript 2019; it is embedded as a
  stable insertion sort `sortBy` over the boolean relation
  `comparator a b ≤ 0`.  When the comparator returns NaN (an unparseable
  date on either side) the ECMAScript SortCompare treats it as 0; the
  embedded comparators return 0 in that case.
* The two-bucket `forEach` push loop appends each normalized game, in input
  order, to exactly one bucket; this is embedded as a `filter` over the
  mapped list for each bucket.
* The HTTP fetch is embedded by passing the already-received `Response`
  (ok flag, status code, optional events list); a thrown-and-caught
  `Error` whose `message` becomes the schedule error is `Except.error` of
  that message.
-/

/-- One participant record of a raw event: `Competitor` from the source,
with every field that the code accesses through `?.`/`||` made optional. -/
structure Competitor where
  homeAway : String
  teamDisplayName : Option String
  teamAbbreviation : Option String
  teamLogo : Option String
  teamPresent : Bool
  score : Option String
deriving DecidableEq, Repr

/-- The source reads `competitor?.team?.field`: if the `team` object itself
is absent (`teamPresent = false`) every team field reads as `undefined`. -/
def Competitor.teamField (c : Competitor) (f : Competitor → Option String) :
    Option String :=
  if c.teamPresent then f c else none

/-- `Competition` from the source: the competitor collection, optional
because the code guards it with `competitors?.`. -/
structure Competition where
  competitors : Option (List Competitor)
deriving DecidableEq, Repr

/-- A raw `Event` from the schedule endpoint.  `date` is the parsed
timestamp (`none` = unparseable); `completed` collapses the
`status?.type?.completed` optional chain. -/
structure Event where
  id : String
  date : Option Int
  name : String
  shortName : String
  completed : Option Bool
  competitions : List Competition
deriving DecidableEq, Repr

/-- The nested team snapshot of a normalized `Game` side. -/
structure TeamInfo where
  displayName : String
  abbreviation : String
  logo : String
deriving DecidableEq, Repr

/-- One side (home or away) of a normalized `Game`. -/
structure GameSide where
  team : TeamInfo
  score : Option String
deriving DecidableEq, Repr

/-- The normalized `Game` produced for each raw event. -/
structure Game where
  id : String
  date : Option Int
  name : String
  shortName : String
  completed : Bool
  homeTeam : GameSide
  awayTeam : GameSide
deriving DecidableEq, Repr

/-- The `TeamSchedule` result: last (recent) and next (upcoming) games. -/
structure TeamSchedule where
  lastGames : List Game
  nextGames : List Game
deriving DecidableEq, Repr

/-- The schedule endpoint response as the code observes it: `ok` and
`status` of the HTTP response, and the `events` field of the JSON body
(`none` when absent, matching `data.events || []`). -/
structure Response where
  ok : Bool
  status : Nat
  events : Option (List Event)
deriving DecidableEq, Repr

/-- JS `x || d` on an optionally-absent string: both `undefined` and the
empty string are falsy and fall through to the default. -/
def jsOrStr (x : Option String) (d : String) : String :=
  match x with
  | none => d
  | some s => if s = "" then d else s

/-- `event.competitions[0]?.competitors?.find((c) => c.homeAway === side)`. -/
def findCompetitor (side : String) (e : Event) : Option Competitor :=
  ((e.competitions.head?).bind (·.competitors)).bind
    (fun cs => cs.find? (fun c => c.homeAway == side))

/-- The `homeCompetitor` binding of the source. -/
def homeCompetitor (e : Event) : Option Competitor :=
  findCompetitor "home" e

/-- The `awayCompetitor` binding of the source. -/
def awayCompetitor (e : Event) : Option Competitor :=
  findCompetitor "away" e

/-- The construction of one side of the `game` literal:
`competitor?.team?.displayName || "TBD"` etc., `score: competitor?.score`. -/
def mkSide (c : Option Competitor) : GameSide :=
  { team :=
      { displayName := jsOrStr (c.bind (·.teamField (·.teamDisplayName))) "TBD"
        abbreviation := jsOrStr (c.bind (·.teamField (·.teamAbbreviation))) "TBD"
        logo := jsOrStr (c.bind (·.teamField (·.teamLogo))) "" }
    score := c.bind (·.score) }

/-- The `game` literal built for each event inside the `forEach` loop.
`completed := event.status?.type?.completed || false`. -/
def mkGame (e : Event) : Game :=
  { id := e.id
    date := e.date
    name := e.name
    shortName := e.shortName
    completed := e.completed.getD false
    homeTeam := mkSide (homeCompetitor e)
    awayTeam := mkSide (awayCompetitor e) }

/-- `gameDate > now`, with an unparseable date (NaN) never greater. -/
def isFuture (now : Int) (d : Option Int) : Bool :=
  match d with
  | some t => decide (now < t)
  | none => false

/-- The `completedGames` bucket after the `forEach` loop: the games whose
`completed` flag is set, in input order. -/
def completedCandidates (events : List Event) : List Game :=
  (events.map mkGame).filter (·.completed)

/-- The `upcomingGames` bucket after the `forEach` loop: games not
completed whose date is strictly in the future, in input order. -/
def upcomingCandidates (now : Int) (events : List Event) : List Game :=
  (events.map mkGame).filter (fun g => !g.completed && isFuture now g.date)

/-- `(a, b) => new Date(b.date).getTime() - new Date(a.date).getTime()`,
the descending comparator for recent games; NaN results are treated as 0
exactly as ECMAScript SortCompare does. -/
def cmpRecent (a b : Game) : Int :=
  match a.date, b.date with
  | some ta, some tb => tb - ta
  | _, _ => 0

/-- `(a, b) => new Date(a.date).getTime() - new Date(b.date).getTime()`,
the ascending comparator for upcoming games. -/
def cmpUpcoming (a b : Game) : Int :=
  match a.date, b.date with
  | some ta, some tb => ta - tb
  | _, _ => 0

/-- Insert `a` into `l` before the first element `b` with `le a b`;
the insertion step of a stable insertion sort. -/
def insertBy (le : α → α → Bool) (a : α) : List α → List α
  | [] => [a]
  | b :: l => if le a b then a :: b :: l else b :: insertBy le a l

/-- Stable sort by the boolean relation `le` (`comparator a b ≤ 0`):
equal-comparing elements keep their input order, which matches the
stability that ECMAScript 2019 requires of `Array.prototype.sort`. -/
def sortBy (le : α → α → Bool) : List α → List α
  | [] => []
  | a :: l => insertBy le a (sortBy le l)

/-- The boolean sort relation induced by a JS comparator. -/
def cmpLe (cmp : α → α → Int) (a b : α) : Bool :=
  decide (cmp a b ≤ 0)

/-- The body of `fetchTeamSchedule` from the `response.ok` check onward:
on a non-ok response the thrown `HTTP error! status: ...` message is the
failure; otherwise the events are classified, each bucket is stably
sorted by its comparator and capped at 3 (`slice(0, 3)`). -/
def fetchTeamSchedule (now : Int) (resp : Response) :
    Except String TeamSchedule :=
  if resp.ok then
    let events := resp.events.getD []
    let lastGames := (sortBy (cmpLe cmpRecent) (completedCandidates events)).take 3
    let nextGames :=
      (sortBy (cmpLe cmpUpcoming) (upcomingCandidates now events)).take 3
    .ok { lastGames := lastGames, nextGames := nextGames }
  else
    .error ("HTTP error! status: " ++ toString resp.status)

/-- `{game.homeTeam.score || "0"}` in the rendering of a recent game:
the presentation-only substitution of "0" for a missing score. -/
def displayScore (s : Option String) : String :=
  jsOrStr s "0"

/-! ## Generic facts about the stable insertion sort -/

theorem perm_insertBy (le : α → α → Bool) (a : α) (l : List α) :
    (insertBy le a l).Perm (a :: l) := by
  induction l with
  | nil => exact List.Perm.refl _
  | cons b l ih =>
    by_cases h : le a b = true
    · simp [insertBy, h]
    · simp only [insertBy, h, if_false]
      exact (ih.cons b).trans (List.Perm.swap a b l)

theorem perm_sortBy (le : α → α → Bool) (l : List α) : (sortBy le l).Perm l := by
  induction l with
  | nil => exact List.Perm.refl _
  | cons a l ih => exact (perm_insertBy le a (sortBy le l)).trans (ih.cons a)

theorem mem_sortBy (le : α → α → Bool) (l : List α) (a : α) :
    a ∈ sortBy le l ↔ a ∈ l :=
  (perm_sortBy le l).mem_iff

theorem pairwise_insertBy (le : α → α → Bool) (a : α) (l : List α)
    (hl : l.Pairwise (fun x y => le x y = true))
    (total : ∀ b ∈ l, le a b = true ∨ le b a = true)
    (htrans : ∀ b ∈ l, ∀ c ∈ l, le a b = true → le b c = true → le a c = true) :
    (insertBy le a l).Pairwise (fun x y => le x y = true) := by
  induction l with
  | nil => simp [insertBy]
  | cons b l ih =>
    by_cases h : le a b = true
    · simp only [insertBy, h, if_true]
      refine List.Pairwise.cons ?_ hl
      intro c hc
      rcases List.mem_cons.mp hc with rfl | hc
      · exact h
      · exact htrans b (List.mem_cons_self b l) c (List.mem_cons_of_mem b hc) h
          (List.rel_of_pairwise_cons hl hc)
    · simp only [insertBy, h, if_false]
      refine List.Pairwise.cons ?_ ?_
      · intro c hc
        rcases List.mem_cons.mp ((perm_insertBy le a l).mem_iff.mp hc) with rfl | hc
        · rcases total b (List.mem_cons_self b l) with h' | h'
          · exact absurd h' h
          · exact h'
        · exact List.rel_of_pairwise_cons hl hc
      · exact ih (List.Pairwise.of_cons hl)
          (fun c hc => total c (List.mem_cons_of_mem b hc))
          (fun c hc d hd => htrans c (List.mem_cons_of_mem b hc)
            d (List.mem_cons_of_mem b hd))

theorem pairwise_sortBy (le : α → α → Bool) (l : List α)
    (total : ∀ a ∈ l, ∀ b ∈ l, le a b = true ∨ le b a = true)
    (htrans : ∀ a ∈ l, ∀ b ∈ l, ∀ c ∈ l,
      le a b = true → le b c = true → le a c = true) :
    (sortBy le l).Pairwise (fun x y => le x y = true) := by
  induction l with
  | nil => simp [sortBy]
  | cons a l ih =>
    have hmem : ∀ b ∈ sortBy le l, b ∈ a :: l :=
      fun b hb => List.mem_cons_of_mem a ((mem_sortBy le l b).mp hb)
    refine pairwise_insertBy le a (sortBy le l) ?_ ?_ ?_
    · exact ih
        (fun x hx y hy => total x (List.mem_cons_of_mem a hx) y (List.mem_cons_of_mem a hy))
        (fun x hx y hy z hz => htrans x (List.mem_cons_of_mem a hx)
          y (List.mem_cons_of_mem a hy) z (List.mem_cons_of_mem a hz))
    · exact fun b hb => total a (List.mem_cons_self a l) b (hmem b hb)
    · exact fun b hb c hc => htrans a (List.mem_cons_self a l) b (hmem b hb) c (hmem c hc)

theorem filter_insertBy (le : α → α → Bool) (p : α → Bool) (a : α) (l : List α)
    (H : ∀ b ∈ l, p a = true → p b = true → le a b = true) :
    (insertBy le a l).filter p = (a :: l).filter p := by
  induction l with
  | nil => rfl
  | cons b l ih =>
    have H' : ∀ c ∈ l, p a = true → p c = true → le a c = true :=
      fun c hc => H c (List.mem_cons_of_mem b hc)
    by_cases hab : le a b = true
    · simp [insertBy, hab]
    · by_cases hpa : p a = true
      · by_cases hpb : p b = true
        · exact absurd (H b (List.mem_cons_self b l) hpa hpb) hab
        · simp [insertBy, hab, List.filter_cons, hpa, hpb, ih H']
      · simp [insertBy, hab, List.filter_cons, hpa, ih H']

theorem filter_sortBy (le : α → α → Bool) (p : α → Bool) (l : List α)
    (H : ∀ a ∈ l, ∀ b ∈ l, p a = true → p b = true → le a b = true) :
    (sortBy le l).filter p = l.filter p := by
  induction l with
  | nil => rfl
  | cons a l ih =>
    have H1 : ∀ b ∈ sortBy le l, p a = true → p b = true → le a b = true :=
      fun b hb => H a (List.mem_cons_self a l) b
        (List.mem_cons_of_mem a ((mem_sortBy le l b).mp hb))
    have ih' := ih (fun x hx y hy =>
      H x (List.mem_cons_of_mem a hx) y (List.mem_cons_of_mem a hy))
    simp only [sortBy]
    rw [filter_insertBy le p a (sortBy le l) H1]
    simp [List.filter_cons, ih']

/-! ## Facts about the embedded resolver -/

theorem fetch_ok_iff (now : Int) (resp : Response) (sched : TeamSchedule) :
    fetchTeamSchedule now resp = .ok sched ↔
      resp.ok = true ∧
      sched.lastGames =
        (sortBy (cmpLe cmpRecent) (completedCandidates (resp.events.getD []))).take 3 ∧
      sched.nextGames =
        (sortBy (cmpLe cmpUpcoming)
          (upcomingCandidates now (resp.events.getD []))).take 3 := by
  cases sched with
  | mk lastGames nextGames =>
    by_cases h : resp.ok <;> simp [fetchTeamSchedule, h, eq_comm]

theorem completed_of_mem_completedCandidates {events : List Event} {g : Game}
    (h : g ∈ completedCandidates events) : g.completed = true :=
  (List.mem_filter.mp h).2

theorem of_mem_upcomingCandidates {now : Int} {events : List Event} {g : Game}
    (h : g ∈ upcomingCandidates now events) :
    g.completed = false ∧ isFuture now g.date = true := by
  have h2 := (List.mem_filter.mp h).2
  simpa [Bool.and_eq_true, Bool.not_eq_true'] using h2

theorem date_mkGame (e : Event) : (mkGame e).date = e.date := rfl

theorem completed_mkGame (e : Event) : (mkGame e).completed = e.completed.getD false := rfl

theorem date_isSome_of_mem_completedCandidates {events : List Event} {g : Game}
    (hall : ∀ e ∈ events, e.date.isSome) (hg : g ∈ completedCandidates events) :
    g.date.isSome = true := by
  obtain ⟨hmem, -⟩ := List.mem_filter.mp hg
  obtain ⟨e, he, rfl⟩ := List.mem_map.mp hmem
  simpa [mkGame] using hall e he

theorem date_isSome_of_mem_upcomingCandidates {now : Int} {events : List Event} {g : Game}
    (hall : ∀ e ∈ events, e.date.isSome) (hg : g ∈ upcomingCandidates now events) :
    g.date.isSome = true := by
  obtain ⟨hmem, -⟩ := List.mem_filter.mp hg
  obtain ⟨e, he, rfl⟩ := List.mem_map.mp hmem
  simpa [mkGame] using hall e he

theorem cmpLe_cmpRecent_total (a b : Game) :
    cmpLe cmpRecent a b = true ∨ cmpLe cmpRecent b a = true := by
  cases ha : a.date <;> cases hb : b.date <;> simp [cmpLe, cmpRecent, ha, hb]
  omega

theorem cmpLe_cmpUpcoming_total (a b : Game) :
    cmpLe cmpUpcoming a b = true ∨ cmpLe cmpUpcoming b a = true := by
  cases ha : a.date <;> cases hb : b.date <;> simp [cmpLe, cmpUpcoming, ha, hb]
  omega

theorem cmpLe_cmpRecent_trans {a b c : Game}
    (ha : a.date.isSome = true) (hb : b.date.isSome = true) (hc : c.date.isSome = true) :
    cmpLe cmpRecent a b = true → cmpLe cmpRecent b c = true →
    cmpLe cmpRecent a c = true := by
  obtain ⟨ta, ha⟩ := Option.isSome_iff_exists.mp ha
  obtain ⟨tb, hb⟩ := Option.isSome_iff_exists.mp hb
  obtain ⟨tc, hc⟩ := Option.isSome_iff_exists.mp hc
  simp [cmpLe, cmpRecent, ha, hb, hc]
  omega

theorem cmpLe_cmpUpcoming_trans {a b c : Game}
    (ha : a.date.isSome = true) (hb : b.date.isSome = true) (hc : c.date.isSome = true) :
    cmpLe cmpUpcoming a b = true → cmpLe cmpUpcoming b c = true →
    cmpLe cmpUpcoming a c = true := by
  obtain ⟨ta, ha⟩ := Option.isSome_iff_exists.mp ha
  obtain ⟨tb, hb⟩ := Option.isSome_iff_exists.mp hb
  obtain ⟨tc, hc⟩ := Option.isSome_iff_exists.mp hc
  simp [cmpLe, cmpUpcoming, ha, hb, hc]
  omega

theorem getD_le_of_cmpLe_cmpRecent {a b : Game}
    (ha : a.date.isSome = true) (hb : b.date.isSome = true)
    (h : cmpLe cmpRecent a b = true) : b.date.getD 0 ≤ a.date.getD 0 := by
  obtain ⟨ta, ha⟩ := Option.isSome_iff_exists.mp ha
  obtain ⟨tb, hb⟩ := Option.isSome_iff_exists.mp hb
  simp [cmpLe, cmpRecent, ha, hb] at h ⊢
  omega

theorem getD_le_of_cmpLe_cmpUpcoming {a b : Game}
    (ha : a.date.isSome = true) (hb : b.date.isSome = true)
    (h : cmpLe cmpUpcoming a b = true) : a.date.getD 0 ≤ b.date.getD 0 := by
  obtain ⟨ta, ha⟩ := Option.isSome_iff_exists.mp ha
  obtain ⟨tb, hb⟩ := Option.isSome_iff_exists.mp hb
  simp [cmpLe, cmpUpcoming, ha, hb] at h ⊢
  omega

theorem cmpLe_cmpRecent_of_date_eq {a b : Game} (h : a.date = b.date) :
    cmpLe cmpRecent a b = true := by
  cases hb : b.date <;> (rw [hb] at h; simp [cmpLe, cmpRecent, h, hb])

theorem cmpLe_cmpUpcoming_of_date_eq {a b : Game} (h : a.date = b.date) :
    cmpLe cmpUpcoming a b = true := by
  cases hb : b.date <;> (rw [hb] at h; simp [cmpLe, cmpUpcoming, h, hb])

/-! ## Claim C1 -/

/-- Reference instant for the 5-completed-events scenario. -/
def scenarioT : Int := 1700000000000

/-- One day in milliseconds. -/
def dayMs : Int := 86400000

/-- A completed raw event at timestamp `t`. -/
def scenarioEvent (i : Nat) (t : Int) : Event :=
  { id := toString i
    date := some t
    name := "Game"
    shortName := "G"
    completed := some true
    competitions := [] }

/-- A successful response holding 5 completed events at T-5d .. T-1d. -/
def scenarioResp : Response :=
  { ok := true
    status := 200
    events := some
      [ scenarioEvent 1 (scenarioT - 5 * dayMs)
      , scenarioEvent 2 (scenarioT - 4 * dayMs)
      , scenarioEvent 3 (scenarioT - 3 * dayMs)
      , scenarioEvent 4 (scenarioT - 2 * dayMs)
      , scenarioEvent 5 (scenarioT - 1 * dayMs) ] }

/-- C1: for every input event list (with parseable timestamps, so that
"sorted by timestamp" is meaningful), the `lastGames` sequence of a
successful schedule resolution is sorted non-increasing by timestamp, the
`nextGames` sequence is sorted non-decreasing, and both have length at
most 3; and in the 5-completed-events scenario with timestamps
T-5d .. T-1d, `lastGames` carries exactly [T-1d, T-2d, T-3d] in that
order. -/
theorem recent_desc_upcoming_asc_capped :
    (∀ (now : Int) (resp : Response) (sched : TeamSchedule),
        fetchTeamSchedule now resp = .ok sched →
        (∀ e ∈ resp.events.getD [], e.date.isSome = true) →
        sched.lastGames.Pairwise (fun a b => b.date.getD 0 ≤ a.date.getD 0) ∧
        sched.nextGames.Pairwise (fun a b => a.date.getD 0 ≤ b.date.getD 0) ∧
        sched.lastGames.length ≤ 3 ∧ sched.nextGames.length ≤ 3) ∧
    (∃ sched, fetchTeamSchedule scenarioT scenarioResp = .ok sched ∧
        sched.lastGames.map (fun g => g.date) =
          [some (scenarioT - 1 * dayMs), some (scenarioT - 2 * dayMs),
           some (scenarioT - 3 * dayMs)] ∧
        sched.nextGames = []) := by
  constructor
  · intro now resp sched h hall
    obtain ⟨hok, hlast, hnext⟩ := (fetch_ok_iff now resp sched).mp h
    have hallC : ∀ g ∈ completedCandidates (resp.events.getD []), g.date.isSome = true :=
      fun g hg => date_isSome_of_mem_completedCandidates hall hg
    have hallU : ∀ g ∈ upcomingCandidates now (resp.events.getD []), g.date.isSome = true :=
      fun g hg => date_isSome_of_mem_upcomingCandidates hall hg
    have hpwR := pairwise_sortBy (cmpLe cmpRecent) (completedCandidates (resp.events.getD []))
      (fun a _ b _ => cmpLe_cmpRecent_total a b)
      (fun a ha b hb c hc => cmpLe_cmpRecent_trans (hallC a ha) (hallC b hb) (hallC c hc))
    have hpwU := pairwise_sortBy (cmpLe cmpUpcoming) (upcomingCandidates now (resp.events.getD []))
      (fun a _ b _ => cmpLe_cmpUpcoming_total a b)
      (fun a ha b hb c hc => cmpLe_cmpUpcoming_trans (hallU a ha) (hallU b hb) (hallU c hc))
    have hmemR : ∀ g ∈ sortBy (cmpLe cmpRecent) (completedCandidates (resp.events.getD [])),
        g.date.isSome = true :=
      fun g hg => hallC g ((mem_sortBy _ _ g).mp hg)
    have hmemU : ∀ g ∈ sortBy (cmpLe cmpUpcoming) (upcomingCandidates now (resp.events.getD [])),
        g.date.isSome = true :=
      fun g hg => hallU g ((mem_sortBy _ _ g).mp hg)
    have hpwR' := hpwR.imp_of_mem
      (fun ha hb hr => getD_le_of_cmpLe_cmpRecent (hmemR _ ha) (hmemR _ hb) hr)
    have hpwU' := hpwU.imp_of_mem
      (fun ha hb hr => getD_le_of_cmpLe_cmpUpcoming (hmemU _ ha) (hmemU _ hb) hr)
    refine ⟨?_, ?_, ?_, ?_⟩
    · rw [hlast]
      exact List.Pairwise.sublist (List.take_sublist 3 _) hpwR'
    · rw [hnext]
      exact List.Pairwise.sublist (List.take_sublist 3 _) hpwU'
    · rw [hlast, List.length_take]
      exact min_le_left _ _
    · rw [hnext, List.length_take]
      exact min_le_left _ _
  · exact ⟨_, rfl, by decide, by decide⟩

/-- Witness for C1: the general conjunct applied to a concrete successful
empty-events response. -/
theorem recent_desc_upcoming_asc_capped_witness :
    fetchTeamSchedule 0 { ok := true, status := 200, events := none } =
      .ok { lastGames := [], nextGames := [] } ∧
    (({ lastGames := [], nextGames := [] } : TeamSchedule).lastGames.Pairwise
        (fun a b => b.date.getD 0 ≤ a.date.getD 0) ∧
      ({ lastGames := [], nextGames := [] } : TeamSchedule).nextGames.Pairwise
        (fun a b => a.date.getD 0 ≤ b.date.getD 0) ∧
      ({ lastGames := [], nextGames := [] } : TeamSchedule).lastGames.length ≤ 3 ∧
      ({ lastGames := [], nextGames := [] } : TeamSchedule).nextGames.length ≤ 3) :=
  ⟨by rfl,
    recent_desc_upcoming_asc_capped.1 0 { ok := true, status := 200, events := none }
      { lastGames := [], nextGames := [] } (by rfl) (by decide)⟩

theorem lastGames_subset {now : Int} {resp : Response} {sched : TeamSchedule}
    (h : fetchTeamSchedule now resp = .ok sched) :
    ∀ g ∈ sched.lastGames, g ∈ completedCandidates (resp.events.getD []) := by
  obtain ⟨-, hlast, -⟩ := (fetch_ok_iff now resp sched).mp h
  intro g hg
  rw [hlast] at hg
  exact (mem_sortBy _ _ g).mp ((List.take_sublist 3 _).subset hg)

theorem nextGames_subset {now : Int} {resp : Response} {sched : TeamSchedule}
    (h : fetchTeamSchedule now resp = .ok sched) :
    ∀ g ∈ sched.nextGames, g ∈ upcomingCandidates now (resp.events.getD []) := by
  obtain ⟨-, -, hnext⟩ := (fetch_ok_iff now resp sched).mp h
  intro g hg
  rw [hnext] at hg
  exact (mem_sortBy _ _ g).mp ((List.take_sublist 3 _).subset hg)

theorem mem_lastGames_of_cap {now : Int} {resp : Response} {sched : TeamSchedule}
    (h : fetchTeamSchedule now resp = .ok sched)
    (hcap : (completedCandidates (resp.events.getD [])).length ≤ 3)
    {g : Game} (hg : g ∈ completedCandidates (resp.events.getD [])) :
    g ∈ sched.lastGames := by
  obtain ⟨-, hlast, -⟩ := (fetch_ok_iff now resp sched).mp h
  rw [hlast, List.take_of_length_le]
  · exact (mem_sortBy _ _ g).mpr hg
  · rw [(perm_sortBy _ _).length_eq]
    exact hcap

theorem mem_nextGames_of_cap {now : Int} {resp : Response} {sched : TeamSchedule}
    (h : fetchTeamSchedule now resp = .ok sched)
    (hcap : (upcomingCandidates now (resp.events.getD [])).length ≤ 3)
    {g : Game} (hg : g ∈ upcomingCandidates now (resp.events.getD [])) :
    g ∈ sched.nextGames := by
  obtain ⟨-, -, hnext⟩ := (fetch_ok_iff now resp sched).mp h
  rw [hnext, List.take_of_length_le]
  · exact (mem_sortBy _ _ g).mpr hg
  · rw [(perm_sortBy _ _).length_eq]
    exact hcap

/-! ## Claim C2 -/

/-- C2: every raw event whose nested completion flag is true yields a
normalized game that is a candidate for the recent list — it belongs to
the completed bucket, and it belongs to `lastGames` itself whenever the
3-item cap is not exceeded — and that game never appears in `nextGames`,
whatever its timestamp. -/
theorem completed_in_recent_never_upcoming
    (now : Int) (resp : Response) (sched : TeamSchedule) (e : Event)
    (h : fetchTeamSchedule now resp = .ok sched)
    (he : e ∈ resp.events.getD [])
    (hc : e.completed = some true) :
    mkGame e ∈ completedCandidates (resp.events.getD []) ∧
    ((completedCandidates (resp.events.getD [])).length ≤ 3 →
      mkGame e ∈ sched.lastGames) ∧
    mkGame e ∉ sched.nextGames := by
  have hcomp : (mkGame e).completed = true := by simp [mkGame, hc]
  have hmem : mkGame e ∈ completedCandidates (resp.events.getD []) :=
    List.mem_filter.mpr ⟨List.mem_map.mpr ⟨e, he, rfl⟩, hcomp⟩
  refine ⟨hmem, fun hcap => mem_lastGames_of_cap h hcap hmem, ?_⟩
  intro hup
  have hfalse := (of_mem_upcomingCandidates (nextGames_subset h (mkGame e) hup)).1
  rw [hcomp] at hfalse
  simp at hfalse

/-- A completed one-event input used to witness C2. -/
def eventC2 : Event :=
  { id := "1", date := some 10, name := "n", shortName := "s",
    completed := some true, competitions := [] }

/-- The response holding `eventC2`. -/
def respC2 : Response :=
  { ok := true, status := 200, events := some [eventC2] }

/-- The schedule that `respC2` resolves to. -/
def schedC2 : TeamSchedule :=
  { lastGames := [mkGame eventC2], nextGames := [] }

/-- Witness for C2 on a one-event completed response. -/
theorem completed_in_recent_never_upcoming_witness :
    mkGame eventC2 ∈ completedCandidates (respC2.events.getD []) ∧
    ((completedCandidates (respC2.events.getD [])).length ≤ 3 →
      mkGame eventC2 ∈ schedC2.lastGames) ∧
    mkGame eventC2 ∉ schedC2.nextGames :=
  completed_in_recent_never_upcoming 0 respC2 schedC2 eventC2
    (by rfl) (by simp [respC2]) (by rfl)

/-! ## Claim C3 -/

/-- C3: every raw event whose completion flag is false or absent and whose
timestamp is strictly later than the current instant yields a game that
is a candidate for the upcoming list — it belongs to the upcoming bucket,
and to `nextGames` itself whenever the 3-item cap is not exceeded — and
that game never appears in `lastGames`. -/
theorem future_not_completed_in_upcoming_never_recent
    (now : Int) (resp : Response) (sched : TeamSchedule) (e : Event)
    (h : fetchTeamSchedule now resp = .ok sched)
    (he : e ∈ resp.events.getD [])
    (hc : e.completed = some false ∨ e.completed = none)
    (hf : ∃ t, e.date = some t ∧ now < t) :
    mkGame e ∈ upcomingCandidates now (resp.events.getD []) ∧
    ((upcomingCandidates now (resp.events.getD [])).length ≤ 3 →
      mkGame e ∈ sched.nextGames) ∧
    mkGame e ∉ sched.lastGames := by
  have hcomp : (mkGame e).completed = false := by
    rcases hc with hc | hc <;> simp [mkGame, hc]
  obtain ⟨t, hd, hlt⟩ := hf
  have hfut : isFuture now (mkGame e).date = true := by
    simp [mkGame, isFuture, hd, hlt]
  have hmem : mkGame e ∈ upcomingCandidates now (resp.events.getD []) := by
    refine List.mem_filter.mpr ⟨List.mem_map.mpr ⟨e, he, rfl⟩, ?_⟩
    simp [hcomp, hfut]
  refine ⟨hmem, fun hcap => mem_nextGames_of_cap h hcap hmem, ?_⟩
  intro hlast
  have htrue := completed_of_mem_completedCandidates (lastGames_subset h (mkGame e) hlast)
  rw [hcomp] at htrue
  simp at htrue

/-- A future event with an absent completion flag, witnessing C3. -/
def eventC3 : Event :=
  { id := "2", date := some 10, name := "n", shortName := "s",
    completed := none, competitions := [] }

/-- The response holding `eventC3`. -/
def respC3 : Response :=
  { ok := true, status := 200, events := some [eventC3] }

/-- The schedule that `respC3` resolves to at instant 0. -/
def schedC3 : TeamSchedule :=
  { lastGames := [], nextGames := [mkGame eventC3] }

/-- Witness for C3 on a one-event future response with absent flag. -/
theorem future_not_completed_in_upcoming_never_recent_witness :
    mkGame eventC3 ∈ upcomingCandidates 0 (respC3.events.getD []) ∧
    ((upcomingCandidates 0 (respC3.events.getD [])).length ≤ 3 →
      mkGame eventC3 ∈ schedC3.nextGames) ∧
    mkGame eventC3 ∉ schedC3.lastGames :=
  future_not_completed_in_upcoming_never_recent 0 respC3 schedC3 eventC3
    (by rfl) (by simp [respC3]) (Or.inr rfl) ⟨10, rfl, by decide⟩

/-! ## Claim C4 -/

/-- C4: a normalized game never sits in both lists of one successful
resolution, and every event with a false-or-absent completion flag whose
timestamp is non-future or unparseable lands in neither list. -/
theorem exactly_one_bucket :
    (∀ (now : Int) (resp : Response) (sched : TeamSchedule) (g : Game),
        fetchTeamSchedule now resp = .ok sched →
        ¬(g ∈ sched.lastGames ∧ g ∈ sched.nextGames)) ∧
    (∀ (now : Int) (resp : Response) (sched : TeamSchedule) (e : Event),
        fetchTeamSchedule now resp = .ok sched →
        e ∈ resp.events.getD [] →
        (e.completed = some false ∨ e.completed = none) →
        (e.date = none ∨ ∃ t, e.date = some t ∧ t ≤ now) →
        mkGame e ∉ sched.lastGames ∧ mkGame e ∉ sched.nextGames) := by
  constructor
  · rintro now resp sched g h ⟨hl, hn⟩
    have ht := completed_of_mem_completedCandidates (lastGames_subset h g hl)
    have hf := (of_mem_upcomingCandidates (nextGames_subset h g hn)).1
    rw [ht] at hf
    simp at hf
  · intro now resp sched e h he hc hd
    have hcomp : (mkGame e).completed = false := by
      rcases hc with hc | hc <;> simp [mkGame, hc]
    constructor
    · intro hl
      have ht := completed_of_mem_completedCandidates (lastGames_subset h (mkGame e) hl)
      rw [hcomp] at ht
      simp at ht
    · intro hn
      have hf := (of_mem_upcomingCandidates (nextGames_subset h (mkGame e) hn)).2
      have hno : isFuture now (mkGame e).date = false := by
        rcases hd with hd | ⟨t, hd, hle⟩
        · simp [mkGame, isFuture, hd]
        · simp [mkGame, isFuture, hd]
          omega
      rw [hno] at hf
      simp at hf

/-- A non-future, not-completed event that is silently dropped. -/
def eventC4 : Event :=
  { id := "3", date := some 0, name := "n", shortName := "s",
    completed := some false, competitions := [] }

/-- The response holding `eventC4`. -/
def respC4 : Response :=
  { ok := true, status := 200, events := some [eventC4] }

/-- Witness for C4: the dropped event lands in neither list. -/
theorem exactly_one_bucket_witness :
    mkGame eventC4 ∉ (TeamSchedule.mk [] []).lastGames ∧
    mkGame eventC4 ∉ (TeamSchedule.mk [] []).nextGames :=
  exactly_one_bucket.2 0 respC4 (TeamSchedule.mk [] []) eventC4
    (by rfl) (by simp [respC4]) (Or.inl rfl) (Or.inr ⟨0, rfl, le_refl 0⟩)

/-! ## Claim C5 -/

/-- C5: a non-success HTTP status makes the resolver fail with the
`HTTP error! status: <code>` message — which contains the status code —
and no schedule result is produced. -/
theorem http_failure_aborts
    (now : Int) (resp : Response) (h : resp.ok = false) :
    fetchTeamSchedule now resp =
      .error ("HTTP error! status: " ++ toString resp.status) ∧
    (∃ pre suf, ("HTTP error! status: " ++ toString resp.status) =
        pre ++ toString resp.status ++ suf) ∧
    ∀ sched, fetchTeamSchedule now resp ≠ .ok sched := by
  have he : fetchTeamSchedule now resp =
      .error ("HTTP error! status: " ++ toString resp.status) := by
    simp [fetchTeamSchedule, h]
  refine ⟨he, ⟨"HTTP error! status: ", "", by rw [String.append_empty]⟩, ?_⟩
  intro sched hcontra
  rw [he] at hcontra
  exact Except.noConfusion hcontra

/-- Witness for C5 on a 404 response. -/
theorem http_failure_aborts_witness :
    fetchTeamSchedule 0 (Response.mk false 404 none) =
      .error ("HTTP error! status: " ++ toString (Response.mk false 404 none).status) ∧
    (∃ pre suf, ("HTTP error! status: " ++ toString (Response.mk false 404 none).status) =
        pre ++ toString (Response.mk false 404 none).status ++ suf) ∧
    ∀ sched, fetchTeamSchedule 0 (Response.mk false 404 none) ≠ .ok sched :=
  http_failure_aborts 0 (Response.mk false 404 none) rfl

/-! ## Claim C6 -/

/-- C6: a successful response with an absent or empty event list resolves
to the schedule with two empty sequences, not to an error. -/
theorem empty_events_success
    (now : Int) (resp : Response) (hok : resp.ok = true)
    (hev : resp.events = none ∨ resp.events = some []) :
    fetchTeamSchedule now resp = .ok { lastGames := [], nextGames := [] } := by
  rcases hev with hev | hev <;>
    simp [fetchTeamSchedule, hok, hev, completedCandidates, upcomingCandidates, sortBy]

/-- Witness for C6 on a successful response with no events field. -/
theorem empty_events_success_witness :
    fetchTeamSchedule 7 (Response.mk true 200 none) =
      .ok { lastGames := [], nextGames := [] } :=
  empty_events_success 7 (Response.mk true 200 none) rfl (Or.inl rfl)

/-! ## Claim C7 -/

/-- C7: when the home-side (resp. away-side) participant of a raw event is
missing, that side of the normalized game is the synthesized snapshot with
display name "TBD", abbreviation "TBD", empty logo and absent score. -/
theorem missing_side_is_tbd (e : Event) :
    (homeCompetitor e = none →
      (mkGame e).homeTeam =
        { team := { displayName := "TBD", abbreviation := "TBD", logo := "" },
          score := none }) ∧
    (awayCompetitor e = none →
      (mkGame e).awayTeam =
        { team := { displayName := "TBD", abbreviation := "TBD", logo := "" },
          score := none }) := by
  constructor <;> intro h <;> simp [mkGame, mkSide, h, jsOrStr]

/-- Witness for C7 on an event without participants. -/
theorem missing_side_is_tbd_witness :
    (mkGame eventC4).homeTeam =
      { team := { displayName := "TBD", abbreviation := "TBD", logo := "" },
        score := none } ∧
    (mkGame eventC4).awayTeam =
      { team := { displayName := "TBD", abbreviation := "TBD", logo := "" },
        score := none } :=
  ⟨(missing_side_is_tbd eventC4).1 rfl, (missing_side_is_tbd eventC4).2 rfl⟩

/-! ## Claim C8 -/

/-- C8: a present participant carrying no score yields an absent (not
zero) score on its side of the normalized game, while the display layer's
`score || "0"` substitution renders "0" without touching that value. -/
theorem missing_score_absent_not_zero (e : Event) (c : Competitor) :
    (homeCompetitor e = some c → c.score = none →
      (mkGame e).homeTeam.score = none ∧
      displayScore (mkGame e).homeTeam.score = "0") ∧
    (awayCompetitor e = some c → c.score = none →
      (mkGame e).awayTeam.score = none ∧
      displayScore (mkGame e).awayTeam.score = "0") := by
  constructor <;> intro h hs <;>
    simp [mkGame, mkSide, h, hs, displayScore, jsOrStr]

/-- A present home participant that carries no score. -/
def compNoScore : Competitor :=
  { homeAway := "home", teamDisplayName := some "Chiefs",
    teamAbbreviation := some "KC", teamLogo := some "logo.png",
    teamPresent := true, score := none }

/-- An event whose home participant is present but scoreless. -/
def eventC8 : Event :=
  { id := "4", date := some 5, name := "n", shortName := "s",
    completed := some true, competitions := [{ competitors := some [compNoScore] }] }

/-- Witness for C8 on the scoreless home participant. -/
theorem missing_score_absent_not_zero_witness :
    (mkGame eventC8).homeTeam.score = none ∧
    displayScore (mkGame eventC8).homeTeam.score = "0" :=
  (missing_score_absent_not_zero eventC8 compNoScore).1 (by rfl) rfl

/-! ## Claim C9 -/

/-- C9: the classification and ordering step is deterministic — re-running
the resolver on the same input is the identity of a pure function — and
the sort is stable: among games sharing one timestamp the sorted candidate
order equals the candidate (input) order, and each capped output list is a
sublist of its stably sorted candidate list, so relative order survives
the cap. -/
theorem classification_deterministic_stable :
    (∀ (now : Int) (resp : Response),
      fetchTeamSchedule now resp = fetchTeamSchedule now resp) ∧
    (∀ (events : List Event) (d : Option Int),
      (sortBy (cmpLe cmpRecent) (completedCandidates events)).filter
          (fun g => g.date == d) =
        (completedCandidates events).filter (fun g => g.date == d)) ∧
    (∀ (now : Int) (events : List Event) (d : Option Int),
      (sortBy (cmpLe cmpUpcoming) (upcomingCandidates now events)).filter
          (fun g => g.date == d) =
        (upcomingCandidates now events).filter (fun g => g.date == d)) ∧
    (∀ (now : Int) (resp : Response) (sched : TeamSchedule),
      fetchTeamSchedule now resp = .ok sched →
      sched.lastGames.Sublist
        (sortBy (cmpLe cmpRecent) (completedCandidates (resp.events.getD []))) ∧
      sched.nextGames.Sublist
        (sortBy (cmpLe cmpUpcoming) (upcomingCandidates now (resp.events.getD [])))) := by
  refine ⟨fun _ _ => rfl, ?_, ?_, ?_⟩
  · intro events d
    refine filter_sortBy _ _ _ ?_
    intro a _ b _ ha hb
    have ha' : a.date = d := by simpa using ha
    have hb' : b.date = d := by simpa using hb
    exact cmpLe_cmpRecent_of_date_eq (ha'.trans hb'.symm)
  · intro now events d
    refine filter_sortBy _ _ _ ?_
    intro a _ b _ ha hb
    have ha' : a.date = d := by simpa using ha
    have hb' : b.date = d := by simpa using hb
    exact cmpLe_cmpUpcoming_of_date_eq (ha'.trans hb'.symm)
  · intro now resp sched h
    obtain ⟨-, hlast, hnext⟩ := (fetch_ok_iff now resp sched).mp h
    rw [hlast, hnext]
    exact ⟨List.take_sublist 3 _, List.take_sublist 3 _⟩

/-- Witness for C9's capped-output conjunct on an empty response. -/
theorem classification_deterministic_stable_witness :
    (TeamSchedule.mk [] []).lastGames.Sublist
      (sortBy (cmpLe cmpRecent)
        (completedCandidates ((Response.mk true 200 none).events.getD []))) ∧
    (TeamSchedule.mk [] []).nextGames.Sublist
      (sortBy (cmpLe cmpUpcoming)
        (upcomingCandidates 0 ((Response.mk true 200 none).events.getD []))) :=
  classification_deterministic_stable.2.2.2 0 (Response.mk true 200 none)
    (TeamSchedule.mk [] []) (by rfl)

/-! ## Claim C10 -/

/-- C10: the "TBD" defaulting is applied per field: with a present
participant, each absent-or-empty team field individually falls back to
its default ("TBD" for names, "" for the logo) while a present non-empty
field — and the score, unconditionally — is taken from the participant. -/
theorem tbd_defaulting_per_field :
    (∀ e : Event,
      (mkGame e).homeTeam = mkSide (homeCompetitor e) ∧
      (mkGame e).awayTeam = mkSide (awayCompetitor e)) ∧
    (∀ c : Competitor,
      (c.teamField (fun x => x.teamDisplayName) = none ∨
          c.teamField (fun x => x.teamDisplayName) = some "" →
        (mkSide (some c)).team.displayName = "TBD") ∧
      (∀ s, c.teamField (fun x => x.teamDisplayName) = some s → s ≠ "" →
        (mkSide (some c)).team.displayName = s) ∧
      (c.teamField (fun x => x.teamAbbreviation) = none ∨
          c.teamField (fun x => x.teamAbbreviation) = some "" →
        (mkSide (some c)).team.abbreviation = "TBD") ∧
      (∀ s, c.teamField (fun x => x.teamAbbreviation) = some s → s ≠ "" →
        (mkSide (some c)).team.abbreviation = s) ∧
      (c.teamField (fun x => x.teamLogo) = none ∨
          c.teamField (fun x => x.teamLogo) = some "" →
        (mkSide (some c)).team.logo = "") ∧
      (∀ s, c.teamField (fun x => x.teamLogo) = some s → s ≠ "" →
        (mkSide (some c)).team.logo = s) ∧
      (mkSide (some c)).score = c.score) := by
  refine ⟨fun e => ⟨rfl, rfl⟩, fun c => ⟨?_, ?_, ?_, ?_, ?_, ?_, rfl⟩⟩
  · rintro (h | h) <;> simp [mkSide, jsOrStr, h]
  · intro s h hs
    simp [mkSide, jsOrStr, h, hs]
  · rintro (h | h) <;> simp [mkSide, jsOrStr, h]
  · intro s h hs
    simp [mkSide, jsOrStr, h, hs]
  · rintro (h | h) <;> simp [mkSide, jsOrStr, h]
  · intro s h hs
    simp [mkSide, jsOrStr, h, hs]

/-- A present participant with absent display name, empty abbreviation,
non-empty logo and a score. -/
def compC10 : Competitor :=
  { homeAway := "home", teamDisplayName := none,
    teamAbbreviation := some "", teamLogo := some "L",
    teamPresent := true, score := some "7" }

/-- Witness for C10: each field of `compC10` is defaulted independently. -/
theorem tbd_defaulting_per_field_witness :
    (mkSide (some compC10)).team.displayName = "TBD" ∧
    (mkSide (some compC10)).team.abbreviation = "TBD" ∧
    (mkSide (some compC10)).team.logo = "L" ∧
    (mkSide (some compC10)).score = some "7" :=
  ⟨(tbd_defaulting_per_field.2 compC10).1 (Or.inl rfl),
   (tbd_defaulting_per_field.2 compC10).2.2.1 (Or.inr rfl),
   (tbd_defaulting_per_field.2 compC10).2.2.2.2.2.1 "L" rfl (by decide),
   (tbd_defaulting_per_field.2 compC10).2.2.2.2.2.2⟩
